import Mathlib

/-!
Verification of the merge-and-validate protocol of `sanic_dantic/basic_definition.py`.

The Python source is shallowly embedded: Python dicts become association
lists (`Map`), sanic multi-dicts become `MultiMap`, pydantic models become
abstract schemas `Map → Except ValError Map` (the collaborator contract:
validate a flat mapping, return the validated mapping of `.dict()` or raise a
structured validation error), `json.loads` becomes an abstract parser
`String → Option Value`, and the function `validate` is translated
control-flow point by control-flow point.
-/

set_option autoImplicit false

namespace SanicDantic

/-- A Python/JSON value as it can appear in request data:
`None`, numbers, strings, lists and dicts. -/
inductive Value where
  | null
  | vInt (n : Int)
  | vStr (s : String)
  | vList (vs : List Value)
  | vDict (entries : List (String × Value))

/-- A Python dict with string keys, as an association list in insertion
order.  Lookups return the binding of the key (Python dicts are key-unique;
`mapSet` keeps them that way). -/
abbrev Map := List (String × Value)

/-- `d[k]` / `d.get(k)`: first binding of the key. -/
def mapLookup : Map → String → Option Value
  | [], _ => none
  | (k', v) :: rest, k => if k' = k then some v else mapLookup rest k

/-- `d[k] = v`: replace the binding in place if the key is present,
otherwise append it. -/
def mapSet : Map → String → Value → Map
  | [], k, v => [(k, v)]
  | (k', v') :: rest, k, v =>
    if k' = k then (k', v) :: rest else (k', v') :: mapSet rest k v

/-- `d.update(n)`: set every binding of `n` into `d`, in order. -/
def mapUpdate (d n : Map) : Map :=
  n.foldl (fun acc kv => mapSet acc kv.1 kv.2) d

/-- `d.pop(k)`: remove the key's binding. -/
def mapPop : Map → String → Map
  | [], _ => []
  | (k', v) :: rest, k =>
    if k' = k then rest else (k', v) :: mapPop rest k

/-- A sanic multi-dict (`request.args`, `request.form`): each key carries the
list of all supplied values. -/
abbrev MultiMap := List (String × List Value)

/-- Multi-dict lookup (key-unique, like sanic's). -/
def mmLookup : MultiMap → String → Option (List Value)
  | [], _ => none
  | (k', vs) :: rest, k => if k' = k then some vs else mmLookup rest k

/-- `val[0] if len(val) == 1 else val`: a single value collapses to the
scalar, several values stay a list. -/
def collapse : List Value → Value
  | [v] => v
  | vs => Value.vList vs

/-- The flattening dict comprehension
`{key: val[0] if len(val) == 1 else val for key, val in mm.items()}`. -/
def flattenMM (mm : MultiMap) : Map :=
  mapUpdate [] (mm.map fun kv => (kv.1, collapse kv.2))

/-- One structured field error of a pydantic `ValidationError`, reduced to
what `validate` reads: the head of the `loc` tuple and the `msg`. -/
structure FieldError where
  loc : String
  msg : String
deriving DecidableEq

/-- A pydantic `ValidationError`: a nonempty ordered list of field errors
(pydantic guarantees at least one), modelled as head plus rest. -/
structure ValError where
  firstError : FieldError
  restErrors : List FieldError
deriving DecidableEq

/-- The schema collaborator contract: a pydantic model class, called on a
flat keyword mapping; `Model(**m).dict()` either returns the validated
mapping or raises a `ValidationError`. -/
abbrev Schema := Map → Except ValError Map

/-- The sanic request surface that `validate` reads.  `json` is the
`request.json` property: `Except.error msg` models the property raising
(malformed body), `Except.ok v` models it returning a parsed value
(possibly `None` or a non-dict). -/
structure Request where
  headers : Map
  match_info : Map
  args : MultiMap
  form : MultiMap
  json : Except String Value

/-- The `error` slot of `DanticModelObj`: absent, the literal `True`, or a
custom handler called as `dmo.error(request, e)`.  (The constructor rejects
every other value, so only these three are representable.) -/
inductive ErrorSlot where
  | eNone
  | eTrue
  | eHandler (f : Request → ValError → Value)

/-- `DanticModelObj`: the per-handler schema bundle, one optional schema per
request section plus the error slot. -/
structure DanticModelObj where
  header : Option Schema
  query : Option Schema
  path : Option Schema
  body : Option Schema
  form : Option Schema
  all : Option Schema
  error : ErrorSlot

/-- `DanticModelObj.__init__`: the `body and form` mutual-exclusion check;
on violation the `AssertionError` is logged and re-raised as
`ServerError(str(e))`, modelled as `Except.error` with `str(e)`.  (The other
two constructor checks — every model inherits `BaseModel`, `error` is `True`
or callable — cannot fail in this embedding because `Schema` and `ErrorSlot`
make ill-typed slots unrepresentable.) -/
def DanticModelObj.make (header query path body form all : Option Schema)
    (error : ErrorSlot) : Except String DanticModelObj :=
  if body.isSome && form.isSome then
    Except.error "sanic-dantic: body and form cannot be used at the same time."
  else
    Except.ok ⟨header, query, path, body, form, all, error⟩

/-- An exception escaping the `try` body of `validate`: either a pydantic
`ValidationError` or any other exception with its `str(e)`. -/
inductive Exc where
  | validation (e : ValError)
  | other (msg : String)
deriving Nonempty

/-- `Model(**m).dict()` inside the `try` body: a `ValidationError` becomes
an `Exc.validation`. -/
def runSchema (s : Schema) (m : Map) : Except Exc Map :=
  match s m with
  | .ok r => .ok r
  | .error e => .error (.validation e)

/-- `json.loads(raw)` under the bare `except: pass`: a string that parses
is replaced by its parse, anything else (parse failure, or a non-string
such as a repeated-field list, where `json.loads` raises `TypeError`)
is left as it was. -/
def loadsOrKeep (jp : String → Option Value) (raw : Value) : Value :=
  match raw with
  | .vStr s =>
    match jp s with
    | some v => v
    | none => .vStr s
  | v => v

/-- `if dmo.header: parsed_args.update(dmo.header(**request.headers).dict())`. -/
def stepHeader (req : Request) (dmo : DanticModelObj) (pa : Map) : Except Exc Map :=
  match dmo.header with
  | none => .ok pa
  | some s =>
    match runSchema s req.headers with
    | .ok r => .ok (mapUpdate pa r)
    | .error e => .error e

/-- `if dmo.path: parsed_args.update(dmo.path(**request.match_info).dict())`. -/
def stepPath (req : Request) (dmo : DanticModelObj) (pa : Map) : Except Exc Map :=
  match dmo.path with
  | none => .ok pa
  | some s =>
    match runSchema s req.match_info with
    | .ok r => .ok (mapUpdate pa r)
    | .error e => .error e

/-- `if dmo.query:` flatten `request.args`, validate, merge. -/
def stepQuery (req : Request) (dmo : DanticModelObj) (pa : Map) : Except Exc Map :=
  match dmo.query with
  | none => .ok pa
  | some s =>
    match runSchema s (flattenMM req.args) with
    | .ok r => .ok (mapUpdate pa r)
    | .error e => .error e

/-- The `if dmo.form: ... elif dmo.body: ...` block.  Form: flatten
`request.form`; if `payload_json` is present pop it, parse it under the
swallowing `except`, and when the parse is a dict validate-and-merge it
first; then validate-and-merge the remaining flattened form either way.
Body: `dmo.body(**request.json)` — the property raising, or `**` applied to
a non-mapping, is an ordinary exception (→ `ServerError`). -/
def stepFormBody (jp : String → Option Value) (req : Request)
    (dmo : DanticModelObj) (pa : Map) : Except Exc Map :=
  match dmo.form with
  | some s =>
    let form_data := flattenMM req.form
    match mapLookup form_data "payload_json" with
    | some raw =>
      let form_data2 := mapPop form_data "payload_json"
      match loadsOrKeep jp raw with
      | .vDict m =>
        match runSchema s m with
        | .error e => .error e
        | .ok r1 =>
          match runSchema s form_data2 with
          | .error e => .error e
          | .ok r2 => .ok (mapUpdate (mapUpdate pa r1) r2)
      | _ =>
        match runSchema s form_data2 with
        | .error e => .error e
        | .ok r2 => .ok (mapUpdate pa r2)
    | none =>
      match runSchema s form_data with
      | .error e => .error e
      | .ok r => .ok (mapUpdate pa r)
  | none =>
    match dmo.body with
    | none => .ok pa
    | some s =>
      match req.json with
      | .error msg => .error (.other msg)
      | .ok (.vDict m) =>
        match runSchema s m with
        | .error e => .error e
        | .ok r => .ok (mapUpdate pa r)
      | .ok _ => .error (.other "validate() argument after ** must be a mapping")

/-- The `body_params` computation of the `dmo.all` branch when
`request.json` raised: flatten `request.form`; pop `payload_json` if
present, parse it under the swallowing `except`, and splice it in with
`body_params.update(**payload_json)` only when the parse is a dict. -/
def formFallback (jp : String → Option Value) (form : MultiMap) : Map :=
  let bp := flattenMM form
  match mapLookup bp "payload_json" with
  | none => bp
  | some raw =>
    let bp2 := mapPop bp "payload_json"
    match loadsOrKeep jp raw with
    | .vDict m => mapUpdate bp2 m
    | _ => bp2

/-- The `body_params` of the `dmo.all` branch:
`request.json` if it is a dict; `{}` if the property returned a non-dict;
the form fallback when the property raised (the bare `except:`). -/
def bodyParamsAll (jp : String → Option Value) (req : Request) : Map :=
  match req.json with
  | .ok (.vDict m) => m
  | .ok _ => []
  | .error _ => formFallback jp req.form

/-- The combined `params` mapping of the `dmo.all` branch: an empty dict
updated in order with headers, path parameters, the flattened query
mapping, and `body_params`. -/
def allParams (jp : String → Option Value) (req : Request) : Map :=
  mapUpdate (mapUpdate (mapUpdate (mapUpdate [] req.headers) req.match_info)
    (flattenMM req.args)) (bodyParamsAll jp req)

/-- `if dmo.all:` validate the combined mapping and merge. -/
def stepAll (jp : String → Option Value) (req : Request)
    (dmo : DanticModelObj) (pa : Map) : Except Exc Map :=
  match dmo.all with
  | none => .ok pa
  | some s =>
    match runSchema s (allParams jp req) with
    | .ok r => .ok (mapUpdate pa r)
    | .error e => .error e

/-- The whole `try` body of `validate`: the five section steps in source
order, threading `parsed_args` from the empty dict. -/
def runValidate (jp : String → Option Value) (req : Request)
    (dmo : DanticModelObj) : Except Exc Map :=
  (((stepHeader req dmo []).bind (stepPath req dmo)).bind
    (stepQuery req dmo)).bind (stepFormBody jp req dmo) |>.bind
    (stepAll jp req dmo)

/-- The observable outcome of `validate`: a returned merged object, a
re-raised `ValidationError`, a custom handler's returned value, a raised
`InvalidUsage(message)`, or a raised `ServerError(message)`. -/
inductive VResult where
  | ok (params : Map)
  | raised (e : ValError)
  | handled (v : Value)
  | invalidUsage (message : String)
  | serverError (message : String)

/-- `validate(request, dmo)` with the surrounding exception dispatch, plus
the request's `ctx.params` slot: the pair's second component is the slot
after the call, starting from `ctx`.  `request.ctx.params = parsed_args`
runs only after the `try`/`except` block, on the fall-through success path;
a `ValidationError` is re-raised when `dmo.error == True`, handed to a
callable `dmo.error` whose result is returned, or formatted from the first
field error as `f'{loc[0]} {msg}'` and raised as `InvalidUsage`; any other
exception is raised as `ServerError(str(e))`. -/
def validate (jp : String → Option Value) (req : Request)
    (dmo : DanticModelObj) (ctx : Option Map) : VResult × Option Map :=
  match runValidate jp req dmo with
  | .ok parsed_args => (.ok parsed_args, some parsed_args)
  | .error (.validation e) =>
    match dmo.error with
    | .eTrue => (.raised e, ctx)
    | .eHandler f => (.handled (f req e), ctx)
    | .eNone =>
      (.invalidUsage (e.firstError.loc ++ " " ++ e.firstError.msg), ctx)
  | .error (.other msg) => (.serverError msg, ctx)

/-!
The heap world for `ParsedArgsObj.__deepcopy__`.

`__deepcopy__` returns `ParsedArgsObj(deepcopy(dict(self)))`: it delegates to
the standard library's recursive `copy.deepcopy` of the underlying dict.  To
state what "shares no mutable state" means we model Python's object graph
explicitly: immediate values (`int`, `str`) next to references into a heap of
mutable container objects (dicts and lists).  `deepcopyVal` is recursive
fresh-address copying — stdlib `deepcopy` restricted to the acyclic object
graphs a parsed-argument object holds (the memo table that additionally
preserves internal sharing and cycles is not modelled; on graphs where the
fuel suffices the copy it produces has the same reachable values). -/

/-- A Python value: an immediate (immutable) value or a reference to a
mutable container object on the heap. -/
inductive PVal where
  | pInt (n : Int)
  | pStr (s : String)
  | pRef (a : Nat)
deriving DecidableEq

/-- A mutable container object: a dict or a list of values. -/
inductive PObj where
  | pDict (entries : List (String × PVal))
  | pList (items : List PVal)
deriving DecidableEq

/-- The heap: addresses bound to container objects. -/
abbrev Heap := List (Nat × PObj)

/-- Read the object at an address. -/
def lookupHeap : Heap → Nat → Option PObj
  | [], _ => none
  | (a', o) :: rest, a => if a' = a then some o else lookupHeap rest a

/-- Write (mutate) the object at an address: replace in place if bound,
append otherwise. -/
def setHeap : Heap → Nat → PObj → Heap
  | [], a, o => [(a, o)]
  | (a', o') :: rest, a, o =>
    if a' = a then (a', o) :: rest else (a', o') :: setHeap rest a o

/-- Deep-copy every value of a list in order, threading the heap and the
next fresh address through `f`, the copier for a single value. -/
def copyMany (f : Heap → Nat → PVal → Option (PVal × Heap × Nat)) :
    Heap → Nat → List PVal → Option (List PVal × Heap × Nat)
  | h, nx, [] => some ([], h, nx)
  | h, nx, v :: vs =>
    match f h nx v with
    | none => none
    | some (v', h', nx') =>
      match copyMany f h' nx' vs with
      | none => none
      | some (vs', h'', nx'') => some (v' :: vs', h'', nx'')

/-- Deep-copy every value of a dict's entry list, keeping keys. -/
def copyEntries (f : Heap → Nat → PVal → Option (PVal × Heap × Nat)) :
    Heap → Nat → List (String × PVal) →
    Option (List (String × PVal) × Heap × Nat)
  | h, nx, [] => some ([], h, nx)
  | h, nx, (k, v) :: es =>
    match f h nx v with
    | none => none
    | some (v', h', nx') =>
      match copyEntries f h' nx' es with
      | none => none
      | some (es', h'', nx'') => some ((k, v') :: es', h'', nx'')

/-- `copy.deepcopy`: immediates are returned as-is; a reference is copied by
deep-copying the referenced object's contents and allocating the copy at
the next fresh address.  `fuel` bounds the reference depth (`none` =
exhausted or dangling reference). -/
def deepcopyVal : Nat → Heap → Nat → PVal → Option (PVal × Heap × Nat)
  | _, h, nx, .pInt n => some (.pInt n, h, nx)
  | _, h, nx, .pStr s => some (.pStr s, h, nx)
  | 0, _, _, .pRef _ => none
  | fuel + 1, h, nx, .pRef a =>
    match lookupHeap h a with
    | none => none
    | some (.pList vs) =>
      match copyMany (fun h2 n2 v2 => deepcopyVal fuel h2 n2 v2) h nx vs with
      | none => none
      | some (vs', h', nx') =>
        some (.pRef nx', setHeap h' nx' (.pList vs'), nx' + 1)
    | some (.pDict es) =>
      match copyEntries (fun h2 n2 v2 => deepcopyVal fuel h2 n2 v2) h nx es with
      | none => none
      | some (es', h', nx') =>
        some (.pRef nx', setHeap h' nx' (.pDict es'), nx' + 1)

/-- One access step into the object graph: a dict field or a list index. -/
inductive Field where
  | key (k : String)
  | idx (i : Nat)
deriving DecidableEq

/-- Dict-entry lookup by key (first match). -/
def entryLookup : List (String × PVal) → String → Option PVal
  | [], _ => none
  | (k', v) :: rest, k => if k' = k then some v else entryLookup rest k

/-- Follow one access step from a value. -/
def getStep (h : Heap) (v : PVal) (f : Field) : Option PVal :=
  match v with
  | .pRef a =>
    match lookupHeap h a, f with
    | some (.pDict es), .key k => entryLookup es k
    | some (.pList vs), .idx i => vs.get? i
    | _, _ => none
  | _ => none

/-- The value reached from `v` along an access path. -/
def getPath (h : Heap) (v : PVal) : List Field → Option PVal
  | [] => some v
  | f :: p =>
    match getStep h v f with
    | none => none
    | some v2 => getPath h v2 p

/-- The address reached from `v` along a path, when the value there is a
reference to a container object. -/
def refAtPath (h : Heap) (v : PVal) (p : List Field) : Option Nat :=
  match getPath h v p with
  | some (.pRef a) => some a
  | _ => none

/-- Every reference of the value points below `n`. -/
def valBound : PVal → Nat → Bool
  | .pRef a, n => a < n
  | _, _ => true

/-- Every reference of the value points at or above `n`. -/
def valGE : PVal → Nat → Bool
  | .pRef a, n => n ≤ a
  | _, _ => true

/-- Every reference inside the object points below `n`. -/
def objBound : PObj → Nat → Bool
  | .pList vs, n => vs.all (valBound · n)
  | .pDict es, n => es.all (fun kv => valBound kv.2 n)

/-- Every reference inside the object points at or above `n`. -/
def objGE : PObj → Nat → Bool
  | .pList vs, n => vs.all (valGE · n)
  | .pDict es, n => es.all (fun kv => valGE kv.2 n)

/-- The heap is closed below `n`: every bound address and every reference
stored in an object is below `n`. -/
def heapBound (h : Heap) (n : Nat) : Bool :=
  h.all (fun ao => decide (ao.1 < n) && objBound ao.2 n)

/-!
Definitions following the spec's words, for refinement comparison, and
concrete fixtures used by witnesses and counterexamples.
-/

/-- Per the spec sentence behind C2 (not the code): "The body-params mapping
is: the parsed JSON body if it parses to a mapping; otherwise the flattened
form mapping (single-value-collapse rule), with the same `payload_json`
nested-JSON unpack-and-merge-in-place rule applied". -/
def bodyParamsSpec (jp : String → Option Value) (req : Request) : Map :=
  match req.json with
  | .ok (.vDict m) => m
  | _ => formFallback jp req.form

/-- The amended C2 body-params rule: the parsed JSON body if it is a
mapping; the empty mapping if the body was obtained without error but is
not a mapping; the flattened form mapping with the `payload_json`
unpack-and-merge-in-place rule only when obtaining the JSON body raises. -/
def bodyParamsAmended (jp : String → Option Value) (req : Request) : Map :=
  match req.json with
  | .ok (.vDict m) => m
  | .ok _ => []
  | .error _ => formFallback jp req.form

/-- A schema that accepts any mapping and returns it unchanged. -/
def passThrough : Schema := fun m => Except.ok m

/-- A JSON parser fixture on which every parse fails. -/
def jpNone : String → Option Value := fun _ => none

/-- The literal string `'\x7b"a": 1\x7d'`. -/
def jsonAB : String := "\x7b\"a\": 1\x7d"

/-- The literal string `'\x7bnot valid json'`. -/
def jsonBad : String := "\x7bnot valid json"

/-- A parser fixture that parses exactly `jsonAB` to the mapping `a = 1`. -/
def jpAB : String → Option Value := fun s =>
  if s = jsonAB then some (.vDict [("a", .vInt 1)]) else none

/-- A schema accepting exactly the fields `a` and `b`, passing values
through. -/
def schemaAB : Schema := fun m =>
  if m.all (fun kv => kv.1 == "a" || kv.1 == "b") then Except.ok m
  else Except.error ⟨⟨"extra", "extra fields not permitted"⟩, []⟩

/-- A request carrying only form data. -/
def reqForm (form : MultiMap) : Request :=
  ⟨[], [], [], form, Except.error "no body"⟩

/-- Form submission `payload_json = '\x7b"a": 1\x7d'`, `b = 2`. -/
def reqC1 : Request :=
  reqForm [("payload_json", [Value.vStr jsonAB]), ("b", [Value.vStr "2"])]

/-- Form submission `payload_json = '\x7bnot valid json'`, `b = 2`. -/
def reqC6 : Request :=
  reqForm [("payload_json", [Value.vStr jsonBad]), ("b", [Value.vStr "2"])]

/-- JSON body parsing to a non-mapping (`[1]`), next to a form field
`b = 2`. -/
def reqC2 : Request :=
  ⟨[], [], [], [("b", [Value.vStr "2"])], Except.ok (Value.vList [Value.vInt 1])⟩

/-- A bundle with only a `form` schema. -/
def dmoForm (s : Schema) : DanticModelObj :=
  ⟨none, none, none, none, some s, none, .eNone⟩

/-- A bundle with only a `query` schema. -/
def dmoQuery (s : Schema) : DanticModelObj :=
  ⟨none, some s, none, none, none, none, .eNone⟩

/-- A bundle with only an `all` schema. -/
def dmoAll (s : Schema) : DanticModelObj :=
  ⟨none, none, none, none, none, some s, .eNone⟩

/-- A bundle with header, query and path schemas. -/
def dmoHPQ (sh sq sp : Schema) : DanticModelObj :=
  ⟨some sh, some sq, some sp, none, none, none, .eNone⟩

/-- A bundle with query and body schemas. -/
def dmoQB (sq sb : Schema) : DanticModelObj :=
  ⟨none, some sq, none, some sb, none, none, .eNone⟩

/-- A bundle with only a `header` schema and a chosen error slot. -/
def dmoHeaderErr (s : Schema) (err : ErrorSlot) : DanticModelObj :=
  ⟨some s, none, none, none, none, none, err⟩

/-- A request with no data in any section. -/
def reqEmpty : Request := ⟨[], [], [], [], Except.error "no body"⟩

/-- Constant schemas returning a shared key `x` with section-distinct
values, and a disjoint form result. -/
def sConstX1 : Schema := fun _ => Except.ok [("x", Value.vInt 1)]

/-- See `sConstX1`. -/
def sConstX2 : Schema := fun _ => Except.ok [("x", Value.vInt 2)]

/-- See `sConstX1`. -/
def sConstX3 : Schema := fun _ => Except.ok [("x", Value.vInt 3)]

/-- See `sConstX1`. -/
def sConstX9 : Schema := fun _ => Except.ok [("x", Value.vInt 9)]

/-- A request whose JSON body is an (empty) mapping. -/
def reqBody : Request := ⟨[], [], [], [], Except.ok (Value.vDict [])⟩

/-- A validation error fixture, and a schema that always raises it. -/
def eW : ValError := ⟨⟨"x", "field required"⟩, []⟩

/-- A schema that always raises `eW`. -/
def sFail : Schema := fun _ => Except.error eW

/-- Repeated query key `tag=a&tag=b`. -/
def reqTags : Request :=
  ⟨[], [], [("tag", [Value.vStr "a", Value.vStr "b"])], [], Except.error "no body"⟩

/-- Single query key `tag=a`. -/
def reqTag1 : Request :=
  ⟨[], [], [("tag", [Value.vStr "a"])], [], Except.error "no body"⟩

/-- A two-object heap: a dict at 0 whose field `x` points to a list at 1. -/
def heapW : Heap := [(0, .pDict [("x", .pRef 1)]), (1, .pList [.pInt 5])]

/-- The merged result of one full pass of `validate`, in source merge
order: header, path, query, then the form/body block's first pass (the
`payload_json`-derived fields, `[]` when that pass does not run), its
second pass (the remaining form fields, or the body result, `[]` when
neither section is configured), then the `all` result (`[]` when absent).
`mapUpdate pa [] = pa`, so absent sections contribute nothing. -/
def mergeSections (mh mp mq f1 f2 ma : Map) : Map :=
  mapUpdate (mapUpdate (mapUpdate (mapUpdate (mapUpdate
    (mapUpdate [] mh) mp) mq) f1) f2) ma

/-- A configured section validating successfully: the slot is absent and
contributes the empty mapping, or its schema accepts the section's input
and returns the given result. -/
inductive SectionOk : Option Schema → Map → Map → Prop where
  | absent (input : Map) : SectionOk none input []
  | present (s : Schema) (input M : Map) (h : s input = Except.ok M) :
      SectionOk (some s) input M

/-- The `if dmo.form: ... elif dmo.body: ...` block validating
successfully, with the results of its first pass (fields unpacked from a
`payload_json` dict, `[]` when that pass does not run) and its second pass
(the remaining flattened form, or the body result).  One constructor per
source path: neither section configured; body configured with a JSON body
that is a mapping; form configured without `payload_json`; form configured
with a `payload_json` that yields a dict; form configured with a
`payload_json` that yields anything else. -/
inductive FormBodyOk (jp : String → Option Value) (req : Request) :
    Option Schema → Option Schema → Map → Map → Prop where
  | neither : FormBodyOk jp req none none [] []
  | bodyDict (s : Schema) (mb F2 : Map)
      (hj : req.json = Except.ok (Value.vDict mb))
      (hs : s mb = Except.ok F2) :
      FormBodyOk jp req none (some s) [] F2
  | formPlain (s : Schema) (ob : Option Schema) (F2 : Map)
      (hpj : mapLookup (flattenMM req.form) "payload_json" = none)
      (hs : s (flattenMM req.form) = Except.ok F2) :
      FormBodyOk jp req (some s) ob [] F2
  | formPayloadDict (s : Schema) (ob : Option Schema) (raw : Value)
      (m F1 F2 : Map)
      (hpj : mapLookup (flattenMM req.form) "payload_json" = some raw)
      (hlk : loadsOrKeep jp raw = Value.vDict m)
      (h1 : s m = Except.ok F1)
      (h2 : s (mapPop (flattenMM req.form) "payload_json") = Except.ok F2) :
      FormBodyOk jp req (some s) ob F1 F2
  | formPayloadOther (s : Schema) (ob : Option Schema) (raw : Value)
      (F2 : Map)
      (hpj : mapLookup (flattenMM req.form) "payload_json" = some raw)
      (hlk : ∀ m, loadsOrKeep jp raw ≠ Value.vDict m)
      (h2 : s (mapPop (flattenMM req.form) "payload_json") = Except.ok F2) :
      FormBodyOk jp req (some s) ob [] F2

/-- The heap after deep-copying `heapW`'s dict with fresh addresses from 2. -/
def heapW2 : Heap := heapW ++ [(2, .pList [.pInt 5]), (3, .pDict [("x", .pRef 2)])]

/-- The value `v` is one of the object's element values. -/
def objMem (v : PVal) : PObj → Prop
  | .pList vs => v ∈ vs
  | .pDict es => v ∈ es.map Prod.snd

/-- Invariant of one deep-copy step starting at heap `h` and fresh address
`nx`: the next fresh address only grows, the output heap stays closed below
it, the copied value's references lie in the fresh region `[nx, nx')`, the
heap below `nx` is untouched, and every object at or above `nx` holds only
references at or above `nx`. -/
abbrev copyInv (h : Heap) (nx : Nat) (v' : PVal) (h' : Heap) (nx' : Nat) : Prop :=
  nx ≤ nx' ∧ heapBound h' nx' = true ∧ valGE v' nx = true ∧
  valBound v' nx' = true ∧
  (∀ a, a < nx → lookupHeap h' a = lookupHeap h a) ∧
  (∀ a o, nx ≤ a → lookupHeap h' a = some o → objGE o nx = true)

/-- `copyInv` for a list of copied values. -/
abbrev copyManyInv (h : Heap) (nx : Nat) (vs' : List PVal) (h' : Heap)
    (nx' : Nat) : Prop :=
  nx ≤ nx' ∧ heapBound h' nx' = true ∧
  (∀ v' ∈ vs', valGE v' nx = true ∧ valBound v' nx' = true) ∧
  (∀ a, a < nx → lookupHeap h' a = lookupHeap h a) ∧
  (∀ a o, nx ≤ a → lookupHeap h' a = some o → objGE o nx = true)

/-!
Association-list lemmas about `mapSet`, `mapUpdate` and `flattenMM`.
-/

theorem mapLookup_mapSet_self (d : Map) (k : String) (v : Value) :
    mapLookup (mapSet d k v) k = some v := by
  induction d with
  | nil => simp [mapSet, mapLookup]
  | cons kv rest ih =>
    obtain ⟨k0, v0⟩ := kv
    by_cases hk : k0 = k <;> simp [mapSet, mapLookup, hk, ih]

theorem mapLookup_mapSet_ne (d : Map) {k k' : String} (v : Value)
    (h : k' ≠ k) : mapLookup (mapSet d k v) k' = mapLookup d k' := by
  have h' : ¬ k = k' := fun he => h he.symm
  induction d with
  | nil => simp [mapSet, mapLookup, h']
  | cons kv rest ih =>
    obtain ⟨k0, v0⟩ := kv
    by_cases hk : k0 = k
    · subst hk
      simp [mapSet, mapLookup, h']
    · simp [mapSet, mapLookup, hk, ih]

theorem mapUpdate_nil (d : Map) : mapUpdate d [] = d := rfl

theorem mapUpdate_cons (d : Map) (kv : String × Value) (n : Map) :
    mapUpdate d (kv :: n) = mapUpdate (mapSet d kv.1 kv.2) n := rfl

theorem mapLookup_mapUpdate_not_mem (d n : Map) (k : String)
    (h : k ∉ n.map Prod.fst) :
    mapLookup (mapUpdate d n) k = mapLookup d k := by
  induction n generalizing d with
  | nil => rfl
  | cons kv rest ih =>
    simp only [List.map_cons, List.mem_cons, not_or] at h
    rw [mapUpdate_cons, ih _ h.2, mapLookup_mapSet_ne d kv.2 h.1]

theorem mapLookup_mapUpdate_of_lookup (d n : Map) (k : String) (v : Value)
    (hnd : (n.map Prod.fst).Nodup) (h : mapLookup n k = some v) :
    mapLookup (mapUpdate d n) k = some v := by
  induction n generalizing d with
  | nil => cases h
  | cons kv rest ih =>
    obtain ⟨k0, v0⟩ := kv
    rw [mapUpdate_cons]
    simp only [List.map_cons, List.nodup_cons] at hnd
    by_cases hk : k0 = k
    · subst hk
      simp only [mapLookup, if_pos rfl, Option.some.injEq] at h
      rw [mapLookup_mapUpdate_not_mem _ _ _ hnd.1]
      simpa [mapLookup_mapSet_self] using congrArg some h
    · simp only [mapLookup, if_neg hk] at h
      exact ih _ hnd.2 h

theorem mapLookup_eq_none_iff (m : Map) (k : String) :
    mapLookup m k = none ↔ k ∉ m.map Prod.fst := by
  induction m with
  | nil => simp [mapLookup]
  | cons kv rest ih =>
    obtain ⟨k0, v0⟩ := kv
    by_cases hk : k0 = k
    · subst hk
      simp [mapLookup]
    · simp only [mapLookup, if_neg hk, List.map_cons, List.mem_cons, not_or,
        ih]
      constructor
      · intro hr
        exact ⟨fun he => hk he.symm, hr⟩
      · intro hr
        exact hr.2

theorem mapLookup_map_collapse (mm : MultiMap) (k : String) (vs : List Value)
    (h : mmLookup mm k = some vs) :
    mapLookup (mm.map fun kv => (kv.1, collapse kv.2)) k
      = some (collapse vs) := by
  induction mm with
  | nil => cases h
  | cons kv rest ih =>
    obtain ⟨k0, vs0⟩ := kv
    by_cases hk : k0 = k
    · simp only [mmLookup, if_pos hk, Option.some.injEq] at h
      simp [mapLookup, hk, h]
    · simp only [mmLookup, if_neg hk] at h
      simp [mapLookup, hk, ih h]

theorem keys_map_collapse (mm : MultiMap) :
    (mm.map fun kv => (kv.1, collapse kv.2)).map Prod.fst
      = mm.map Prod.fst := by
  simp [List.map_map]

theorem mapLookup_flattenMM (mm : MultiMap) (k : String) (vs : List Value)
    (hnd : (mm.map Prod.fst).Nodup) (h : mmLookup mm k = some vs) :
    mapLookup (flattenMM mm) k = some (collapse vs) := by
  unfold flattenMM
  apply mapLookup_mapUpdate_of_lookup
  · rw [keys_map_collapse]
    exact hnd
  · exact mapLookup_map_collapse mm k vs h

/-!
Claim theorems about the merge-and-validate protocol.
-/

/-- C1: for a form with `payload_json = '\x7b"a": 1\x7d'` and `b = 2`,
validated against a form schema accepting `a` and `b`, `validate` returns
the merged object with `a = 1` from the unpacked JSON and `b = 2` from the
remaining fields, the JSON-derived fields having been merged before the
remaining-fields pass over the same schema. -/
theorem payload_json_unpack_merges_first :
    (validate jpAB reqC1 (dmoForm schemaAB) none).1
      = VResult.ok [("a", Value.vInt 1), ("b", Value.vStr "2")] ∧
    mapLookup [("a", Value.vInt 1), ("b", Value.vStr "2")] "a"
      = some (Value.vInt 1) ∧
    mapLookup [("a", Value.vInt 1), ("b", Value.vStr "2")] "b"
      = some (Value.vStr "2") :=
  ⟨rfl, rfl, rfl⟩

/-- C4: with `dmo.error = True`, a `ValidationError` raised by any
section's schema is re-raised by `validate` unchanged. -/
theorem validationError_reraised (jp : String → Option Value) (req : Request)
    (dmo : DanticModelObj) (ctx : Option Map) (e : ValError)
    (herr : dmo.error = ErrorSlot.eTrue)
    (hrun : runValidate jp req dmo = Except.error (Exc.validation e)) :
    (validate jp req dmo ctx).1 = VResult.raised e := by
  simp [validate, hrun, herr]

/-- Witness for C4 at a concrete failing request. -/
theorem validationError_reraised_witness :
    (dmoHeaderErr sFail ErrorSlot.eTrue).error = ErrorSlot.eTrue ∧
    runValidate jpNone reqEmpty (dmoHeaderErr sFail ErrorSlot.eTrue)
      = Except.error (Exc.validation eW) ∧
    (validate jpNone reqEmpty (dmoHeaderErr sFail ErrorSlot.eTrue) none).1
      = VResult.raised eW :=
  ⟨rfl, rfl, validationError_reraised jpNone reqEmpty _ none eW rfl rfl⟩

/-- C5: with no `error` override, a `ValidationError` makes `validate`
raise `InvalidUsage` whose message is exactly the first field error's
location, a space, and its message. -/
theorem invalidUsage_first_error_message (jp : String → Option Value)
    (req : Request) (dmo : DanticModelObj) (ctx : Option Map) (e : ValError)
    (herr : dmo.error = ErrorSlot.eNone)
    (hrun : runValidate jp req dmo = Except.error (Exc.validation e)) :
    (validate jp req dmo ctx).1
      = VResult.invalidUsage (e.firstError.loc ++ " " ++ e.firstError.msg) := by
  simp [validate, hrun, herr]

/-- Witness for C5 at a concrete failing request. -/
theorem invalidUsage_first_error_message_witness :
    (dmoHeaderErr sFail ErrorSlot.eNone).error = ErrorSlot.eNone ∧
    runValidate jpNone reqEmpty (dmoHeaderErr sFail ErrorSlot.eNone)
      = Except.error (Exc.validation eW) ∧
    (validate jpNone reqEmpty (dmoHeaderErr sFail ErrorSlot.eNone) none).1
      = VResult.invalidUsage "x field required" :=
  ⟨rfl, rfl,
    invalidUsage_first_error_message jpNone reqEmpty _ none eW rfl rfl⟩

/-- C8: constructing a bundle with both `body` and `form` fails with the
configuration error, and no bundle is produced. -/
theorem make_rejects_body_and_form (h q p a : Option Schema) (e : ErrorSlot)
    (sb sf : Schema) :
    DanticModelObj.make h q p (some sb) (some sf) a e =
      Except.error
        "sanic-dantic: body and form cannot be used at the same time." := by
  simp [DanticModelObj.make]

/-- C9: `validate` writes the merged object to `request.ctx.params` only on
the success path; on every raising or handler path the slot keeps its prior
value. -/
theorem ctxParams_only_on_success (jp : String → Option Value)
    (req : Request) (dmo : DanticModelObj) (ctx : Option Map) :
    (validate jp req dmo ctx).2 =
      match (validate jp req dmo ctx).1 with
      | .ok m => some m
      | _ => ctx := by
  cases hr : runValidate jp req dmo with
  | ok pa => simp [validate, hr]
  | error exc =>
    cases exc with
    | validation e => cases herr : dmo.error <;> simp [validate, hr, herr]
    | other msg => simp [validate, hr]

/-- C6: a `payload_json` form field whose string value fails to parse never
fails the request: the field is popped, the parse error swallowed, and the
outcome is exactly that of validating the remaining flattened form fields
against the form schema. -/
theorem payload_json_invalid_dropped (jp : String → Option Value)
    (req : Request) (s : Schema) (str : String)
    (hpj : mapLookup (flattenMM req.form) "payload_json"
      = some (Value.vStr str))
    (hbad : jp str = none) :
    runValidate jp req (dmoForm s) =
      match s (mapPop (flattenMM req.form) "payload_json") with
      | .ok r => Except.ok (mapUpdate [] r)
      | .error e => Except.error (Exc.validation e) := by
  simp only [runValidate, dmoForm, stepHeader, stepPath, stepQuery,
    stepFormBody, Except.bind, hpj, loadsOrKeep, hbad]
  cases hs : s (mapPop (flattenMM req.form) "payload_json") with
  | ok r => simp [runSchema, hs, stepAll, Except.bind]
  | error e => simp [runSchema, hs, Except.bind]

/-- Witness for C6: `payload_json = '\x7bnot valid json'` is dropped and the
remaining field `b = 2` validates normally. -/
theorem payload_json_invalid_dropped_witness :
    mapLookup (flattenMM reqC6.form) "payload_json"
      = some (Value.vStr jsonBad) ∧
    jpNone jsonBad = none ∧
    runValidate jpNone reqC6 (dmoForm passThrough)
      = Except.ok [("b", Value.vStr "2")] :=
  ⟨rfl, rfl,
    payload_json_invalid_dropped jpNone reqC6 passThrough jsonBad rfl rfl⟩

/-- C7: the mapping passed to the query schema is the flattened query
multi-map, in which a key with exactly one value collapses to that scalar
and a key with several values stays the sequence. -/
theorem query_flattening (jp : String → Option Value) (req : Request)
    (sq : Schema) (mq : Map) (ctx : Option Map)
    (hq : sq (flattenMM req.args) = Except.ok mq) :
    (validate jp req (dmoQuery sq) ctx).1 = VResult.ok (mapUpdate [] mq) ∧
    ∀ k vs, (req.args.map Prod.fst).Nodup → mmLookup req.args k = some vs →
      mapLookup (flattenMM req.args) k = some (collapse vs) := by
  constructor
  · simp [validate, runValidate, dmoQuery, stepHeader, stepPath, stepQuery,
      stepFormBody, stepAll, Except.bind, runSchema, hq]
  · intro k vs hnd h
    exact mapLookup_flattenMM req.args k vs hnd h

/-- Witness for C7: `tag=a&tag=b` flattens to the sequence `["a","b"]`,
`tag=a` alone to the scalar `"a"`. -/
theorem query_flattening_witness :
    passThrough (flattenMM reqTags.args)
      = Except.ok [("tag", Value.vList [Value.vStr "a", Value.vStr "b"])] ∧
    passThrough (flattenMM reqTag1.args)
      = Except.ok [("tag", Value.vStr "a")] ∧
    (validate jpNone reqTags (dmoQuery passThrough) none).1
      = VResult.ok [("tag", Value.vList [Value.vStr "a", Value.vStr "b"])] ∧
    (validate jpNone reqTag1 (dmoQuery passThrough) none).1
      = VResult.ok [("tag", Value.vStr "a")] ∧
    mapLookup (flattenMM reqTags.args) "tag"
      = some (Value.vList [Value.vStr "a", Value.vStr "b"]) ∧
    mapLookup (flattenMM reqTag1.args) "tag" = some (Value.vStr "a") :=
  ⟨rfl, rfl,
    (query_flattening jpNone reqTags passThrough _ none rfl).1,
    (query_flattening jpNone reqTag1 passThrough _ none rfl).1,
    (query_flattening jpNone reqTags passThrough _ none rfl).2 "tag"
      [Value.vStr "a", Value.vStr "b"] (by decide) rfl,
    (query_flattening jpNone reqTag1 passThrough _ none rfl).2 "tag"
      [Value.vStr "a"] (by decide) rfl⟩

theorem stepHeader_ok (req : Request) (dmo : DanticModelObj) (pa Mh : Map)
    (hh : SectionOk dmo.header req.headers Mh) :
    stepHeader req dmo pa = Except.ok (mapUpdate pa Mh) := by
  unfold stepHeader
  generalize hgen : dmo.header = slot at hh ⊢
  cases hh with
  | absent _ => rfl
  | present s input M h => simp [runSchema, h]

theorem stepPath_ok (req : Request) (dmo : DanticModelObj) (pa Mp : Map)
    (hp : SectionOk dmo.path req.match_info Mp) :
    stepPath req dmo pa = Except.ok (mapUpdate pa Mp) := by
  unfold stepPath
  generalize hgen : dmo.path = slot at hp ⊢
  cases hp with
  | absent _ => rfl
  | present s input M h => simp [runSchema, h]

theorem stepQuery_ok (req : Request) (dmo : DanticModelObj) (pa Mq : Map)
    (hq : SectionOk dmo.query (flattenMM req.args) Mq) :
    stepQuery req dmo pa = Except.ok (mapUpdate pa Mq) := by
  unfold stepQuery
  generalize hgen : dmo.query = slot at hq ⊢
  cases hq with
  | absent _ => rfl
  | present s input M h => simp [runSchema, h]

theorem stepFormBody_ok (jp : String → Option Value) (req : Request)
    (dmo : DanticModelObj) (pa F1 F2 : Map)
    (hfb : FormBodyOk jp req dmo.form dmo.body F1 F2) :
    stepFormBody jp req dmo pa
      = Except.ok (mapUpdate (mapUpdate pa F1) F2) := by
  unfold stepFormBody
  generalize hgenf : dmo.form = fslot at hfb ⊢
  generalize hgenb : dmo.body = bslot at hfb ⊢
  cases hfb with
  | neither => rfl
  | bodyDict s mb G2 hj hs => simp [hj, runSchema, hs, mapUpdate_nil]
  | formPlain s ob G2 hpj hs => simp [hpj, runSchema, hs, mapUpdate_nil]
  | formPayloadDict s ob raw m G1 G2 hpj hlk h1 h2 =>
    simp [hpj, hlk, runSchema, h1, h2]
  | formPayloadOther s ob raw G2 hpj hlk h2 =>
    cases hv : loadsOrKeep jp raw with
    | null => simp [hpj, hv, runSchema, h2, mapUpdate_nil]
    | vInt n => simp [hpj, hv, runSchema, h2, mapUpdate_nil]
    | vStr st => simp [hpj, hv, runSchema, h2, mapUpdate_nil]
    | vList vs => simp [hpj, hv, runSchema, h2, mapUpdate_nil]
    | vDict m => exact absurd hv (hlk m)

theorem stepAll_ok (jp : String → Option Value) (req : Request)
    (dmo : DanticModelObj) (pa Ma : Map)
    (ha : SectionOk dmo.all (allParams jp req) Ma) :
    stepAll jp req dmo pa = Except.ok (mapUpdate pa Ma) := by
  unfold stepAll
  generalize hgen : dmo.all = slot at ha ⊢
  cases ha with
  | absent _ => rfl
  | present s input M h => simp [runSchema, h]

theorem runValidate_sections (jp : String → Option Value) (req : Request)
    (dmo : DanticModelObj) (Mh Mp Mq F1 F2 Ma : Map)
    (hh : SectionOk dmo.header req.headers Mh)
    (hp : SectionOk dmo.path req.match_info Mp)
    (hq : SectionOk dmo.query (flattenMM req.args) Mq)
    (hfb : FormBodyOk jp req dmo.form dmo.body F1 F2)
    (ha : SectionOk dmo.all (allParams jp req) Ma) :
    runValidate jp req dmo
      = Except.ok (mergeSections Mh Mp Mq F1 F2 Ma) := by
  unfold runValidate mergeSections
  rw [stepHeader_ok req dmo [] Mh hh]
  simp only [Except.bind]
  rw [stepPath_ok req dmo _ Mp hp]
  simp only [Except.bind]
  rw [stepQuery_ok req dmo _ Mq hq]
  simp only [Except.bind]
  rw [stepFormBody_ok jp req dmo _ F1 F2 hfb]
  simp only [Except.bind]
  rw [stepAll_ok jp req dmo _ Ma ha]

/-- C3: for every request and every bundle whose configured sections all
validate successfully — any subset of header, path, query; a form section
with or without `payload_json`, or a body section whose JSON body is a
mapping; an `all` section or none — the merged object is the in-order
overwrite header, path, query, the form/body block (the
`payload_json`-derived pass `F1`, then the remaining-form or body pass
`F2`), then the `all` result.  Hence a key shared between sections takes
its value from the highest-precedence section in the order
body/form > query > path > header (conditioned on the key being absent
from the `all` result, which merges last and overrides everything); in
particular a key in the query result and absent above it gets the query
value. -/
theorem section_precedence (jp : String → Option Value) (req : Request)
    (dmo : DanticModelObj) (Mh Mp Mq F1 F2 Ma : Map) (ctx : Option Map)
    (hh : SectionOk dmo.header req.headers Mh)
    (hp : SectionOk dmo.path req.match_info Mp)
    (hq : SectionOk dmo.query (flattenMM req.args) Mq)
    (hfb : FormBodyOk jp req dmo.form dmo.body F1 F2)
    (ha : SectionOk dmo.all (allParams jp req) Ma) :
    (validate jp req dmo ctx).1
      = VResult.ok (mergeSections Mh Mp Mq F1 F2 Ma) ∧
    (∀ k v, (F2.map Prod.fst).Nodup → mapLookup Ma k = none →
      mapLookup F2 k = some v →
      mapLookup (mergeSections Mh Mp Mq F1 F2 Ma) k = some v) ∧
    (∀ k v, (F1.map Prod.fst).Nodup → mapLookup Ma k = none →
      mapLookup F2 k = none → mapLookup F1 k = some v →
      mapLookup (mergeSections Mh Mp Mq F1 F2 Ma) k = some v) ∧
    (∀ k v, (Mq.map Prod.fst).Nodup → mapLookup Ma k = none →
      mapLookup F2 k = none → mapLookup F1 k = none →
      mapLookup Mq k = some v →
      mapLookup (mergeSections Mh Mp Mq F1 F2 Ma) k = some v) ∧
    (∀ k v, (Mp.map Prod.fst).Nodup → mapLookup Ma k = none →
      mapLookup F2 k = none → mapLookup F1 k = none →
      mapLookup Mq k = none → mapLookup Mp k = some v →
      mapLookup (mergeSections Mh Mp Mq F1 F2 Ma) k = some v) ∧
    (∀ k v, (Mh.map Prod.fst).Nodup → mapLookup Ma k = none →
      mapLookup F2 k = none → mapLookup F1 k = none →
      mapLookup Mq k = none → mapLookup Mp k = none →
      mapLookup Mh k = some v →
      mapLookup (mergeSections Mh Mp Mq F1 F2 Ma) k = some v) := by
  have hrv := runValidate_sections jp req dmo Mh Mp Mq F1 F2 Ma hh hp hq
    hfb ha
  refine ⟨?_, ?_, ?_, ?_, ?_, ?_⟩
  · simp [validate, hrv]
  · intro k v hnd hma hv
    unfold mergeSections
    rw [mapLookup_mapUpdate_not_mem _ Ma k
      ((mapLookup_eq_none_iff Ma k).1 hma)]
    exact mapLookup_mapUpdate_of_lookup _ F2 k v hnd hv
  · intro k v hnd hma h2 hv
    unfold mergeSections
    rw [mapLookup_mapUpdate_not_mem _ Ma k
        ((mapLookup_eq_none_iff Ma k).1 hma),
      mapLookup_mapUpdate_not_mem _ F2 k
        ((mapLookup_eq_none_iff F2 k).1 h2)]
    exact mapLookup_mapUpdate_of_lookup _ F1 k v hnd hv
  · intro k v hnd hma h2 h1 hv
    unfold mergeSections
    rw [mapLookup_mapUpdate_not_mem _ Ma k
        ((mapLookup_eq_none_iff Ma k).1 hma),
      mapLookup_mapUpdate_not_mem _ F2 k
        ((mapLookup_eq_none_iff F2 k).1 h2),
      mapLookup_mapUpdate_not_mem _ F1 k
        ((mapLookup_eq_none_iff F1 k).1 h1)]
    exact mapLookup_mapUpdate_of_lookup _ Mq k v hnd hv
  · intro k v hnd hma h2 h1 hmq hv
    unfold mergeSections
    rw [mapLookup_mapUpdate_not_mem _ Ma k
        ((mapLookup_eq_none_iff Ma k).1 hma),
      mapLookup_mapUpdate_not_mem _ F2 k
        ((mapLookup_eq_none_iff F2 k).1 h2),
      mapLookup_mapUpdate_not_mem _ F1 k
        ((mapLookup_eq_none_iff F1 k).1 h1),
      mapLookup_mapUpdate_not_mem _ Mq k
        ((mapLookup_eq_none_iff Mq k).1 hmq)]
    exact mapLookup_mapUpdate_of_lookup _ Mp k v hnd hv
  · intro k v hnd hma h2 h1 hmq hmp hv
    unfold mergeSections
    rw [mapLookup_mapUpdate_not_mem _ Ma k
        ((mapLookup_eq_none_iff Ma k).1 hma),
      mapLookup_mapUpdate_not_mem _ F2 k
        ((mapLookup_eq_none_iff F2 k).1 h2),
      mapLookup_mapUpdate_not_mem _ F1 k
        ((mapLookup_eq_none_iff F1 k).1 h1),
      mapLookup_mapUpdate_not_mem _ Mq k
        ((mapLookup_eq_none_iff Mq k).1 hmq),
      mapLookup_mapUpdate_not_mem _ Mp k
        ((mapLookup_eq_none_iff Mp k).1 hmp)]
    exact mapLookup_mapUpdate_of_lookup _ Mh k v hnd hv

/-- Witness for C3 at two concrete bundles: header, path and query
producing `x` = 1, 2, 3 merge to the query section's 3, and query and body
producing `x` = 3, 9 merge to the body section's 9. -/
theorem section_precedence_witness :
    (validate jpNone reqEmpty (dmoHPQ sConstX1 sConstX3 sConstX2) none).1
      = VResult.ok (mergeSections [("x", Value.vInt 1)]
          [("x", Value.vInt 2)] [("x", Value.vInt 3)] [] [] []) ∧
    mapLookup (mergeSections [("x", Value.vInt 1)] [("x", Value.vInt 2)]
        [("x", Value.vInt 3)] [] [] []) "x" = some (Value.vInt 3) ∧
    (validate jpNone reqBody (dmoQB sConstX3 sConstX9) none).1
      = VResult.ok (mergeSections [] [] [("x", Value.vInt 3)] []
          [("x", Value.vInt 9)] []) ∧
    mapLookup (mergeSections [] [] [("x", Value.vInt 3)] []
        [("x", Value.vInt 9)] []) "x" = some (Value.vInt 9) :=
  ⟨(section_precedence jpNone reqEmpty (dmoHPQ sConstX1 sConstX3 sConstX2)
      [("x", Value.vInt 1)] [("x", Value.vInt 2)] [("x", Value.vInt 3)]
      [] [] [] none
      (SectionOk.present sConstX1 reqEmpty.headers [("x", Value.vInt 1)] rfl)
      (SectionOk.present sConstX2 reqEmpty.match_info
        [("x", Value.vInt 2)] rfl)
      (SectionOk.present sConstX3 (flattenMM reqEmpty.args)
        [("x", Value.vInt 3)] rfl)
      FormBodyOk.neither
      (SectionOk.absent (allParams jpNone reqEmpty))).1,
    (section_precedence jpNone reqEmpty (dmoHPQ sConstX1 sConstX3 sConstX2)
      [("x", Value.vInt 1)] [("x", Value.vInt 2)] [("x", Value.vInt 3)]
      [] [] [] none
      (SectionOk.present sConstX1 reqEmpty.headers [("x", Value.vInt 1)] rfl)
      (SectionOk.present sConstX2 reqEmpty.match_info
        [("x", Value.vInt 2)] rfl)
      (SectionOk.present sConstX3 (flattenMM reqEmpty.args)
        [("x", Value.vInt 3)] rfl)
      FormBodyOk.neither
      (SectionOk.absent (allParams jpNone reqEmpty))).2.2.2.1
      "x" (Value.vInt 3) (by decide) rfl rfl rfl rfl,
    (section_precedence jpNone reqBody (dmoQB sConstX3 sConstX9)
      [] [] [("x", Value.vInt 3)] [] [("x", Value.vInt 9)] [] none
      (SectionOk.absent reqBody.headers)
      (SectionOk.absent reqBody.match_info)
      (SectionOk.present sConstX3 (flattenMM reqBody.args)
        [("x", Value.vInt 3)] rfl)
      (FormBodyOk.bodyDict sConstX9 [] [("x", Value.vInt 9)] rfl rfl)
      (SectionOk.absent (allParams jpNone reqBody))).1,
    (section_precedence jpNone reqBody (dmoQB sConstX3 sConstX9)
      [] [] [("x", Value.vInt 3)] [] [("x", Value.vInt 9)] [] none
      (SectionOk.absent reqBody.headers)
      (SectionOk.absent reqBody.match_info)
      (SectionOk.present sConstX3 (flattenMM reqBody.args)
        [("x", Value.vInt 3)] rfl)
      (FormBodyOk.bodyDict sConstX9 [] [("x", Value.vInt 9)] rfl rfl)
      (SectionOk.absent (allParams jpNone reqBody))).2.1
      "x" (Value.vInt 9) (by decide) rfl rfl⟩

/-- Counterexample to C2 as stated: a JSON body that parses successfully to
a non-mapping (`[1]`) gives an empty body-params mapping, not the flattened
form mapping the claim prescribes. -/
theorem allSection_body_params_counterexample :
    (validate jpNone reqC2 (dmoAll passThrough) none).1 = VResult.ok [] ∧
    bodyParamsAll jpNone reqC2 = [] ∧
    bodyParamsSpec jpNone reqC2 = [("b", Value.vStr "2")] ∧
    bodyParamsAll jpNone reqC2 ≠ bodyParamsSpec jpNone reqC2 := by
  refine ⟨rfl, rfl, rfl, ?_⟩
  intro h
  exact List.noConfusion
    (show ([] : Map) = [("b", Value.vStr "2")] from h)

/-- C2 as amended: with an `all` schema, the validated combined mapping is
headers, then path params, then the flattened query mapping, then the
body-params mapping, where body-params is the parsed JSON body if it is a
mapping, empty if the body was obtained without error but is not a mapping,
and the flattened form mapping with the `payload_json` unpack-and-merge
rule only when obtaining the JSON body raises; in the fallback a failed
`payload_json` parse is removed but not merged, and a successful dict parse
is spliced in before the final combine. -/
theorem allSection_body_params_amended (jp : String → Option Value)
    (req : Request) (sa : Schema) (ma : Map) (ctx : Option Map)
    (ha : sa (allParams jp req) = Except.ok ma) :
    (validate jp req (dmoAll sa) ctx).1 = VResult.ok (mapUpdate [] ma) ∧
    allParams jp req =
      mapUpdate (mapUpdate (mapUpdate (mapUpdate [] req.headers)
        req.match_info) (flattenMM req.args)) (bodyParamsAmended jp req) ∧
    (∀ str, mapLookup (flattenMM req.form) "payload_json"
        = some (Value.vStr str) → jp str = none →
      formFallback jp req.form
        = mapPop (flattenMM req.form) "payload_json") ∧
    (∀ str m, mapLookup (flattenMM req.form) "payload_json"
        = some (Value.vStr str) → jp str = some (Value.vDict m) →
      formFallback jp req.form
        = mapUpdate (mapPop (flattenMM req.form) "payload_json") m) := by
  have hbp : bodyParamsAll jp req = bodyParamsAmended jp req := by
    unfold bodyParamsAll bodyParamsAmended
    cases hj : req.json with
    | ok v => cases v <;> rfl
    | error msg => rfl
  refine ⟨?_, ?_, ?_, ?_⟩
  · simp [validate, runValidate, dmoAll, stepHeader, stepPath, stepQuery,
      stepFormBody, stepAll, Except.bind, runSchema, ha]
  · rw [← hbp]
    rfl
  · intro str hpj hbad
    simp [formFallback, hpj, loadsOrKeep, hbad]
  · intro str m hpj hgood
    simp [formFallback, hpj, loadsOrKeep, hgood]

/-- Witness for the amended C2 at a concrete request whose JSON body is a
non-mapping. -/
theorem allSection_body_params_amended_witness :
    passThrough (allParams jpNone reqC2) = Except.ok [] ∧
    (validate jpNone reqC2 (dmoAll passThrough) none).1 = VResult.ok [] ∧
    allParams jpNone reqC2 =
      mapUpdate (mapUpdate (mapUpdate (mapUpdate [] reqC2.headers)
        reqC2.match_info) (flattenMM reqC2.args))
        (bodyParamsAmended jpNone reqC2) :=
  ⟨rfl,
    (allSection_body_params_amended jpNone reqC2 passThrough [] none rfl).1,
    (allSection_body_params_amended jpNone reqC2 passThrough [] none
      rfl).2.1⟩

/-!
Lemmas on heap bounds, heap mutation, and `deepcopyVal`'s fresh-region
invariant.
-/

theorem valBound_mono {v : PVal} {n n' : Nat} (hle : n ≤ n')
    (h : valBound v n = true) : valBound v n' = true := by
  cases v with
  | pInt m => rfl
  | pStr s => rfl
  | pRef a =>
    simp only [valBound, decide_eq_true_eq] at h ⊢
    omega

theorem valGE_mono {v : PVal} {n n' : Nat} (hle : n' ≤ n)
    (h : valGE v n = true) : valGE v n' = true := by
  cases v with
  | pInt m => rfl
  | pStr s => rfl
  | pRef a =>
    simp only [valGE, decide_eq_true_eq] at h ⊢
    omega

theorem objBound_mono {o : PObj} {n n' : Nat} (hle : n ≤ n')
    (h : objBound o n = true) : objBound o n' = true := by
  cases o with
  | pList vs =>
    simp only [objBound, List.all_eq_true] at h ⊢
    intro v hv
    exact valBound_mono hle (h v hv)
  | pDict es =>
    simp only [objBound, List.all_eq_true] at h ⊢
    intro kv hkv
    exact valBound_mono hle (h kv hkv)

theorem objGE_mono {o : PObj} {n n' : Nat} (hle : n' ≤ n)
    (h : objGE o n = true) : objGE o n' = true := by
  cases o with
  | pList vs =>
    simp only [objGE, List.all_eq_true] at h ⊢
    intro v hv
    exact valGE_mono hle (h v hv)
  | pDict es =>
    simp only [objGE, List.all_eq_true] at h ⊢
    intro kv hkv
    exact valGE_mono hle (h kv hkv)

theorem heapBound_mono {h : Heap} {n n' : Nat} (hle : n ≤ n')
    (hb : heapBound h n = true) : heapBound h n' = true := by
  simp only [heapBound, List.all_eq_true, Bool.and_eq_true,
    decide_eq_true_eq] at hb ⊢
  intro ao hmem
  obtain ⟨h1, h2⟩ := hb ao hmem
  exact ⟨by omega, objBound_mono hle h2⟩

theorem heapBound_lookup {h : Heap} {n a : Nat} {o : PObj}
    (hb : heapBound h n = true) (hl : lookupHeap h a = some o) :
    a < n ∧ objBound o n = true := by
  induction h with
  | nil => cases hl
  | cons ao rest ih =>
    obtain ⟨a0, o0⟩ := ao
    simp only [heapBound, List.all_cons, Bool.and_eq_true,
      decide_eq_true_eq] at hb
    by_cases hk : a0 = a
    · subst hk
      have hoo : some o0 = some o := by simpa [lookupHeap] using hl
      obtain rfl := Option.some.inj hoo
      exact ⟨hb.1.1, hb.1.2⟩
    · simp only [lookupHeap, if_neg hk] at hl
      exact ih (by simpa [heapBound] using hb.2) hl

theorem lookupHeap_setHeap_self (h : Heap) (a : Nat) (o : PObj) :
    lookupHeap (setHeap h a o) a = some o := by
  induction h with
  | nil => simp [setHeap, lookupHeap]
  | cons ao rest ih =>
    obtain ⟨a0, o0⟩ := ao
    by_cases hk : a0 = a <;> simp [setHeap, lookupHeap, hk, ih]

theorem lookupHeap_setHeap_ne (h : Heap) {a a' : Nat} (o : PObj)
    (hne : a' ≠ a) :
    lookupHeap (setHeap h a o) a' = lookupHeap h a' := by
  have h' : ¬ a = a' := fun he => hne he.symm
  induction h with
  | nil => simp [setHeap, lookupHeap, h']
  | cons ao rest ih =>
    obtain ⟨a0, o0⟩ := ao
    by_cases hk : a0 = a
    · subst hk
      simp [setHeap, lookupHeap, h']
    · simp [setHeap, lookupHeap, hk, ih]

theorem heapBound_setHeap {h : Heap} {n a : Nat} {o : PObj}
    (hb : heapBound h n = true) (ha : a < n) (ho : objBound o n = true) :
    heapBound (setHeap h a o) n = true := by
  induction h with
  | nil => simp [setHeap, heapBound, ha, ho]
  | cons ao rest ih =>
    obtain ⟨a0, o0⟩ := ao
    simp only [heapBound, List.all_cons, Bool.and_eq_true,
      decide_eq_true_eq] at hb
    by_cases hk : a0 = a
    · subst hk
      have hred : setHeap ((a0, o0) :: rest) a0 o = (a0, o) :: rest := by
        simp [setHeap]
      rw [hred]
      simp only [heapBound, List.all_cons, Bool.and_eq_true,
        decide_eq_true_eq]
      exact ⟨⟨ha, ho⟩, hb.2⟩
    · have hred : setHeap ((a0, o0) :: rest) a o
          = (a0, o0) :: setHeap rest a o := by
        simp [setHeap, hk]
      rw [hred]
      simp only [heapBound, List.all_cons, Bool.and_eq_true,
        decide_eq_true_eq]
      exact ⟨hb.1, ih hb.2⟩

theorem copyMany_inv (f : Heap → Nat → PVal → Option (PVal × Heap × Nat))
    (hf : ∀ h nx v v' h' nx', heapBound h nx = true →
      f h nx v = some (v', h', nx') → copyInv h nx v' h' nx') :
    ∀ (vs : List PVal) (h : Heap) (nx : Nat) (vs' : List PVal) (h' : Heap)
      (nx' : Nat), heapBound h nx = true →
      copyMany f h nx vs = some (vs', h', nx') →
      copyManyInv h nx vs' h' nx' := by
  intro vs
  induction vs with
  | nil =>
    intro h nx vs' h' nx' hb hc
    simp only [copyMany, Option.some.injEq, Prod.mk.injEq] at hc
    obtain ⟨rfl, rfl, rfl⟩ := hc
    refine ⟨le_refl _, hb, ?_, ?_, ?_⟩
    · intro w hw
      simp at hw
    · intro a ha
      rfl
    · intro a o ha hl
      have := (heapBound_lookup hb hl).1
      omega
  | cons v vs ih =>
    intro h nx vs' h' nx' hb hc
    cases h1 : f h nx v with
    | none =>
      rw [show copyMany f h nx (v :: vs) = none from by
        simp [copyMany, h1]] at hc
      cases hc
    | some t1 =>
      obtain ⟨v1, h1', nx1⟩ := t1
      cases h2 : copyMany f h1' nx1 vs with
      | none =>
        rw [show copyMany f h nx (v :: vs) = none from by
          simp [copyMany, h1, h2]] at hc
        cases hc
      | some t2 =>
        obtain ⟨vs1, h2', nx2⟩ := t2
        rw [show copyMany f h nx (v :: vs) = some (v1 :: vs1, h2', nx2) from by
          simp [copyMany, h1, h2]] at hc
        simp only [Option.some.injEq, Prod.mk.injEq] at hc
        obtain ⟨rfl, rfl, rfl⟩ := hc
        obtain ⟨le1, hb1, ge1, bd1, pre1, new1⟩ := hf h nx v v1 h1' nx1 hb h1
        obtain ⟨le2, hb2, mem2, pre2, new2⟩ := ih h1' nx1 vs1 h2' nx2 hb1 h2
        refine ⟨by omega, hb2, ?_, ?_, ?_⟩
        · intro w hw
          cases List.mem_cons.1 hw with
          | inl he =>
            subst he
            exact ⟨ge1, valBound_mono le2 bd1⟩
          | inr hm =>
            obtain ⟨g2, b2⟩ := mem2 w hm
            exact ⟨valGE_mono le1 g2, b2⟩
        · intro a ha
          rw [pre2 a (by omega), pre1 a ha]
        · intro a o ha hl
          by_cases hlt : a < nx1
          · rw [pre2 a hlt] at hl
            exact new1 a o ha hl
          · exact objGE_mono le1 (new2 a o (by omega) hl)

theorem copyEntries_inv (f : Heap → Nat → PVal → Option (PVal × Heap × Nat))
    (hf : ∀ h nx v v' h' nx', heapBound h nx = true →
      f h nx v = some (v', h', nx') → copyInv h nx v' h' nx') :
    ∀ (es : List (String × PVal)) (h : Heap) (nx : Nat)
      (es' : List (String × PVal)) (h' : Heap) (nx' : Nat),
      heapBound h nx = true →
      copyEntries f h nx es = some (es', h', nx') →
      copyManyInv h nx (es'.map Prod.snd) h' nx' := by
  intro es
  induction es with
  | nil =>
    intro h nx es' h' nx' hb hc
    simp only [copyEntries, Option.some.injEq, Prod.mk.injEq] at hc
    obtain ⟨rfl, rfl, rfl⟩ := hc
    refine ⟨le_refl _, hb, ?_, ?_, ?_⟩
    · intro w hw
      simp at hw
    · intro a ha
      rfl
    · intro a o ha hl
      have := (heapBound_lookup hb hl).1
      omega
  | cons kv es ih =>
    intro h nx es' h' nx' hb hc
    obtain ⟨k, v⟩ := kv
    cases h1 : f h nx v with
    | none =>
      rw [show copyEntries f h nx ((k, v) :: es) = none from by
        simp [copyEntries, h1]] at hc
      cases hc
    | some t1 =>
      obtain ⟨v1, h1', nx1⟩ := t1
      cases h2 : copyEntries f h1' nx1 es with
      | none =>
        rw [show copyEntries f h nx ((k, v) :: es) = none from by
          simp [copyEntries, h1, h2]] at hc
        cases hc
      | some t2 =>
        obtain ⟨es1, h2', nx2⟩ := t2
        rw [show copyEntries f h nx ((k, v) :: es)
            = some ((k, v1) :: es1, h2', nx2) from by
          simp [copyEntries, h1, h2]] at hc
        simp only [Option.some.injEq, Prod.mk.injEq] at hc
        obtain ⟨rfl, rfl, rfl⟩ := hc
        obtain ⟨le1, hb1, ge1, bd1, pre1, new1⟩ := hf h nx v v1 h1' nx1 hb h1
        obtain ⟨le2, hb2, mem2, pre2, new2⟩ := ih h1' nx1 es1 h2' nx2 hb1 h2
        refine ⟨by omega, hb2, ?_, ?_, ?_⟩
        · intro w hw
          simp only [List.map_cons, List.mem_cons] at hw
          cases hw with
          | inl he =>
            subst he
            exact ⟨ge1, valBound_mono le2 bd1⟩
          | inr hm =>
            obtain ⟨g2, b2⟩ := mem2 w hm
            exact ⟨valGE_mono le1 g2, b2⟩
        · intro a ha
          rw [pre2 a (by omega), pre1 a ha]
        · intro a o ha hl
          by_cases hlt : a < nx1
          · rw [pre2 a hlt] at hl
            exact new1 a o ha hl
          · exact objGE_mono le1 (new2 a o (by omega) hl)

theorem deepcopyVal_inv :
    ∀ (fuel : Nat) (h : Heap) (nx : Nat) (v v' : PVal) (h' : Heap)
      (nx' : Nat), heapBound h nx = true →
      deepcopyVal fuel h nx v = some (v', h', nx') →
      copyInv h nx v' h' nx' := by
  intro fuel
  induction fuel with
  | zero =>
    intro h nx v v' h' nx' hb hc
    cases v with
    | pInt m =>
      simp only [deepcopyVal, Option.some.injEq, Prod.mk.injEq] at hc
      obtain ⟨rfl, rfl, rfl⟩ := hc
      refine ⟨le_refl _, hb, rfl, rfl, fun a ha => rfl, fun a o ha hl => ?_⟩
      have := (heapBound_lookup hb hl).1
      omega
    | pStr s =>
      simp only [deepcopyVal, Option.some.injEq, Prod.mk.injEq] at hc
      obtain ⟨rfl, rfl, rfl⟩ := hc
      refine ⟨le_refl _, hb, rfl, rfl, fun a ha => rfl, fun a o ha hl => ?_⟩
      have := (heapBound_lookup hb hl).1
      omega
    | pRef a => cases hc
  | succ fuel ih =>
    intro h nx v v' h' nx' hb hc
    cases v with
    | pInt m =>
      simp only [deepcopyVal, Option.some.injEq, Prod.mk.injEq] at hc
      obtain ⟨rfl, rfl, rfl⟩ := hc
      refine ⟨le_refl _, hb, rfl, rfl, fun a ha => rfl, fun a o ha hl => ?_⟩
      have := (heapBound_lookup hb hl).1
      omega
    | pStr s =>
      simp only [deepcopyVal, Option.some.injEq, Prod.mk.injEq] at hc
      obtain ⟨rfl, rfl, rfl⟩ := hc
      refine ⟨le_refl _, hb, rfl, rfl, fun a ha => rfl, fun a o ha hl => ?_⟩
      have := (heapBound_lookup hb hl).1
      omega
    | pRef a =>
      cases hl : lookupHeap h a with
      | none =>
        rw [show deepcopyVal (fuel + 1) h nx (.pRef a) = none from by
          simp [deepcopyVal, hl]] at hc
        cases hc
      | some o =>
        cases o with
        | pList vs =>
          cases hm : copyMany (fun h2 n2 v2 => deepcopyVal fuel h2 n2 v2)
              h nx vs with
          | none =>
            rw [show deepcopyVal (fuel + 1) h nx (.pRef a) = none from by
              simp [deepcopyVal, hl, hm]] at hc
            cases hc
          | some t =>
            obtain ⟨vs1, h1, nx1⟩ := t
            rw [show deepcopyVal (fuel + 1) h nx (.pRef a)
                = some (.pRef nx1, setHeap h1 nx1 (.pList vs1), nx1 + 1)
                from by simp [deepcopyVal, hl, hm]] at hc
            simp only [Option.some.injEq, Prod.mk.injEq] at hc
            obtain ⟨rfl, rfl, rfl⟩ := hc
            obtain ⟨le1, hb1, mem1, pre1, new1⟩ :=
              copyMany_inv _ (fun h nx v v' h' nx' hb hc =>
                ih h nx v v' h' nx' hb hc) vs h nx vs1 h1 nx1 hb hm
            have hob : objBound (.pList vs1) (nx1 + 1) = true := by
              simp only [objBound, List.all_eq_true]
              intro w hw
              exact valBound_mono (by omega) (mem1 w hw).2
            refine ⟨by omega, ?_, ?_, ?_, ?_, ?_⟩
            · exact heapBound_setHeap (heapBound_mono (by omega) hb1)
                (by omega) hob
            · simp only [valGE, decide_eq_true_eq]
              omega
            · simp only [valBound, decide_eq_true_eq]
              omega
            · intro b hblt
              rw [lookupHeap_setHeap_ne _ _ (by omega : b ≠ nx1)]
              exact pre1 b hblt
            · intro b o hble hlk
              by_cases hbe : b = nx1
              · subst hbe
                rw [lookupHeap_setHeap_self] at hlk
                obtain rfl := Option.some.inj hlk
                simp only [objGE, List.all_eq_true]
                intro w hw
                exact (mem1 w hw).1
              · rw [lookupHeap_setHeap_ne _ _ hbe] at hlk
                exact new1 b o hble hlk
        | pDict es =>
          cases hm : copyEntries (fun h2 n2 v2 => deepcopyVal fuel h2 n2 v2)
              h nx es with
          | none =>
            rw [show deepcopyVal (fuel + 1) h nx (.pRef a) = none from by
              simp [deepcopyVal, hl, hm]] at hc
            cases hc
          | some t =>
            obtain ⟨es1, h1, nx1⟩ := t
            rw [show deepcopyVal (fuel + 1) h nx (.pRef a)
                = some (.pRef nx1, setHeap h1 nx1 (.pDict es1), nx1 + 1)
                from by simp [deepcopyVal, hl, hm]] at hc
            simp only [Option.some.injEq, Prod.mk.injEq] at hc
            obtain ⟨rfl, rfl, rfl⟩ := hc
            obtain ⟨le1, hb1, mem1, pre1, new1⟩ :=
              copyEntries_inv _ (fun h nx v v' h' nx' hb hc =>
                ih h nx v v' h' nx' hb hc) es h nx es1 h1 nx1 hb hm
            have hob : objBound (.pDict es1) (nx1 + 1) = true := by
              simp only [objBound, List.all_eq_true]
              intro kv hkv
              exact valBound_mono (by omega)
                (mem1 kv.2 (List.mem_map_of_mem Prod.snd hkv)).2
            refine ⟨by omega, ?_, ?_, ?_, ?_, ?_⟩
            · exact heapBound_setHeap (heapBound_mono (by omega) hb1)
                (by omega) hob
            · simp only [valGE, decide_eq_true_eq]
              omega
            · simp only [valBound, decide_eq_true_eq]
              omega
            · intro b hblt
              rw [lookupHeap_setHeap_ne _ _ (by omega : b ≠ nx1)]
              exact pre1 b hblt
            · intro b o hble hlk
              by_cases hbe : b = nx1
              · subst hbe
                rw [lookupHeap_setHeap_self] at hlk
                obtain rfl := Option.some.inj hlk
                simp only [objGE, List.all_eq_true]
                intro kv hkv
                exact (mem1 kv.2 (List.mem_map_of_mem Prod.snd hkv)).1
              · rw [lookupHeap_setHeap_ne _ _ hbe] at hlk
                exact new1 b o hble hlk

theorem entryLookup_mem {es : List (String × PVal)} {k : String} {v : PVal}
    (h : entryLookup es k = some v) : v ∈ es.map Prod.snd := by
  induction es with
  | nil => cases h
  | cons kv rest ih =>
    obtain ⟨k0, v0⟩ := kv
    by_cases hk : k0 = k
    · simp only [entryLookup, if_pos hk, Option.some.injEq] at h
      simp [h]
    · simp only [entryLookup, if_neg hk] at h
      simp [ih h]

theorem objBound_objMem {o : PObj} {n : Nat} {v : PVal}
    (hb : objBound o n = true) (hm : objMem v o) : valBound v n = true := by
  cases o with
  | pList vs =>
    simp only [objBound, List.all_eq_true] at hb
    exact hb v hm
  | pDict es =>
    simp only [objBound, List.all_eq_true] at hb
    simp only [objMem, List.mem_map] at hm
    obtain ⟨kv, hkv, rfl⟩ := hm
    exact hb kv hkv

theorem objGE_objMem {o : PObj} {n : Nat} {v : PVal}
    (hb : objGE o n = true) (hm : objMem v o) : valGE v n = true := by
  cases o with
  | pList vs =>
    simp only [objGE, List.all_eq_true] at hb
    exact hb v hm
  | pDict es =>
    simp only [objGE, List.all_eq_true] at hb
    simp only [objMem, List.mem_map] at hm
    obtain ⟨kv, hkv, rfl⟩ := hm
    exact hb kv hkv

theorem getStep_some {h : Heap} {v : PVal} {f : Field} {v2 : PVal}
    (hs : getStep h v f = some v2) :
    ∃ a o, v = .pRef a ∧ lookupHeap h a = some o ∧ objMem v2 o := by
  cases v with
  | pInt m => cases hs
  | pStr s => cases hs
  | pRef a =>
    refine ⟨a, ?_⟩
    cases hl : lookupHeap h a with
    | none =>
      rw [show getStep h (.pRef a) f = none from by
        simp [getStep, hl]] at hs
      cases hs
    | some o =>
      refine ⟨o, rfl, rfl, ?_⟩
      cases o with
      | pList vs =>
        cases f with
        | key k =>
          rw [show getStep h (.pRef a) (.key k) = none from by
            simp [getStep, hl]] at hs
          cases hs
        | idx i =>
          rw [show getStep h (.pRef a) (.idx i) = vs.get? i from by
            simp [getStep, hl]] at hs
          exact List.get?_mem hs
      | pDict es =>
        cases f with
        | key k =>
          rw [show getStep h (.pRef a) (.key k) = entryLookup es k from by
            simp [getStep, hl]] at hs
          exact entryLookup_mem hs
        | idx i =>
          rw [show getStep h (.pRef a) (.idx i) = none from by
            simp [getStep, hl]] at hs
          cases hs

theorem getPath_valBound {h h' : Heap} {nx : Nat}
    (hb : heapBound h nx = true)
    (hpre : ∀ a, a < nx → lookupHeap h' a = lookupHeap h a) :
    ∀ (p : List Field) (v x : PVal), valBound v nx = true →
      getPath h' v p = some x → valBound x nx = true := by
  intro p
  induction p with
  | nil =>
    intro v x hv hg
    simp only [getPath, Option.some.injEq] at hg
    exact hg ▸ hv
  | cons f q ih =>
    intro v x hv hg
    simp only [getPath] at hg
    cases hs : getStep h' v f with
    | none => rw [hs] at hg; cases hg
    | some v2 =>
      rw [hs] at hg
      obtain ⟨a, o, rfl, hlo, hm⟩ := getStep_some hs
      have ha : a < nx := by simpa [valBound] using hv
      have hlo' : lookupHeap h a = some o := by rw [← hpre a ha]; exact hlo
      exact ih v2 x (objBound_objMem (heapBound_lookup hb hlo').2 hm) hg

theorem getPath_valGE {h' : Heap} {nx : Nat}
    (hge : ∀ a o, nx ≤ a → lookupHeap h' a = some o → objGE o nx = true) :
    ∀ (p : List Field) (v x : PVal), valGE v nx = true →
      getPath h' v p = some x → valGE x nx = true := by
  intro p
  induction p with
  | nil =>
    intro v x hv hg
    simp only [getPath, Option.some.injEq] at hg
    exact hg ▸ hv
  | cons f q ih =>
    intro v x hv hg
    simp only [getPath] at hg
    cases hs : getStep h' v f with
    | none => rw [hs] at hg; cases hg
    | some v2 =>
      rw [hs] at hg
      obtain ⟨a, o, rfl, hlo, hm⟩ := getStep_some hs
      have ha : nx ≤ a := by simpa [valGE] using hv
      exact ih v2 x (objGE_objMem (hge a o ha hlo) hm) hg

theorem getPath_setHeap_of_bound {h h' : Heap} {nx b : Nat} {o2 : PObj}
    (hb : heapBound h nx = true)
    (hpre : ∀ a, a < nx → lookupHeap h' a = lookupHeap h a)
    (hnb : nx ≤ b) :
    ∀ (p : List Field) (v : PVal), valBound v nx = true →
      getPath (setHeap h' b o2) v p = getPath h' v p := by
  intro p
  induction p with
  | nil => intro v hv; rfl
  | cons f q ih =>
    intro v hv
    have hstep : getStep (setHeap h' b o2) v f = getStep h' v f := by
      cases v with
      | pInt m => rfl
      | pStr s => rfl
      | pRef a =>
        have ha : a < nx := by simpa [valBound] using hv
        simp only [getStep]
        rw [lookupHeap_setHeap_ne _ _ (by omega : a ≠ b)]
    simp only [getPath, hstep]
    cases hs : getStep h' v f with
    | none => rfl
    | some v2 =>
      obtain ⟨a, o, rfl, hlo, hm⟩ := getStep_some hs
      have ha : a < nx := by simpa [valBound] using hv
      have hlo' : lookupHeap h a = some o := by rw [← hpre a ha]; exact hlo
      exact ih v2 (objBound_objMem (heapBound_lookup hb hlo').2 hm)

theorem getPath_setHeap_of_ge {h' : Heap} {nx b : Nat} {o2 : PObj}
    (hge : ∀ a o, nx ≤ a → lookupHeap h' a = some o → objGE o nx = true)
    (hnb : b < nx) :
    ∀ (p : List Field) (v : PVal), valGE v nx = true →
      getPath (setHeap h' b o2) v p = getPath h' v p := by
  intro p
  induction p with
  | nil => intro v hv; rfl
  | cons f q ih =>
    intro v hv
    have hstep : getStep (setHeap h' b o2) v f = getStep h' v f := by
      cases v with
      | pInt m => rfl
      | pStr s => rfl
      | pRef a =>
        have ha : nx ≤ a := by simpa [valGE] using hv
        simp only [getStep]
        rw [lookupHeap_setHeap_ne _ _ (by omega : a ≠ b)]
    simp only [getPath, hstep]
    cases hs : getStep h' v f with
    | none => rfl
    | some v2 =>
      obtain ⟨a, o, rfl, hlo, hm⟩ := getStep_some hs
      have ha : nx ≤ a := by simpa [valGE] using hv
      exact ih v2 (objGE_objMem (hge a o ha hlo) hm)

theorem refAtPath_some {h : Heap} {v : PVal} {p : List Field} {b : Nat}
    (h1 : refAtPath h v p = some b) : getPath h v p = some (.pRef b) := by
  unfold refAtPath at h1
  cases hg : getPath h v p with
  | none => rw [hg] at h1; cases h1
  | some x =>
    rw [hg] at h1
    cases x with
    | pInt m => cases h1
    | pStr s => cases h1
    | pRef a =>
      obtain rfl := Option.some.inj h1
      rfl

/-- C10: deep-copying a parsed-arguments object graph shares no mutable
state with the original: after a successful deep copy from a closed heap,
mutating the object at any address reachable from the copy leaves every
value reachable from the original (along any access path) unchanged, and
mutating any address reachable from the original leaves every value
reachable from the copy unchanged. -/
theorem deepcopy_no_shared_state (fuel : Nat) (h : Heap) (nx : Nat)
    (v v' : PVal) (h' : Heap) (nx' : Nat) (p q : List Field) (b : Nat)
    (o2 : PObj)
    (HB : heapBound h nx = true) (HV : valBound v nx = true)
    (hc : deepcopyVal fuel h nx v = some (v', h', nx')) :
    (refAtPath h' v' p = some b →
      getPath (setHeap h' b o2) v q = getPath h' v q) ∧
    (refAtPath h' v p = some b →
      getPath (setHeap h' b o2) v' q = getPath h' v' q) := by
  obtain ⟨hle, hB', hge', hbd', hpre, hnew⟩ :=
    deepcopyVal_inv fuel h nx v v' h' nx' HB hc
  constructor
  · intro hp
    have hgb : valGE (.pRef b) nx = true :=
      getPath_valGE hnew p v' (.pRef b) hge' (refAtPath_some hp)
    have hble : nx ≤ b := by simpa [valGE] using hgb
    exact getPath_setHeap_of_bound HB hpre hble q v HV
  · intro hp
    have hvb : valBound (.pRef b) nx = true :=
      getPath_valBound HB hpre p v (.pRef b) HV (refAtPath_some hp)
    have hblt : b < nx := by simpa [valBound] using hvb
    exact getPath_setHeap_of_ge hnew hblt q v' hge'

/-- Witness for C10 on the concrete two-object heap: mutating the dict copy
at its fresh address leaves the value at the original's `x` field
unchanged. -/
theorem deepcopy_no_shared_state_witness :
    heapBound heapW 2 = true ∧
    valBound (.pRef 0) 2 = true ∧
    deepcopyVal 3 heapW 2 (.pRef 0) = some (.pRef 3, heapW2, 4) ∧
    getPath (setHeap heapW2 3 (PObj.pList [])) (.pRef 0) [Field.key "x"]
      = getPath heapW2 (.pRef 0) [Field.key "x"] :=
  ⟨by decide, by decide, by decide,
    (deepcopy_no_shared_state 3 heapW 2 (.pRef 0) (.pRef 3) heapW2 4 []
      [Field.key "x"] 3 (PObj.pList []) (by decide) (by decide)
      (by decide)).1 (by decide)⟩

end SanicDantic
